import Mathlib

/-!
Shallow embedding of the Hanks-Server content platform core
(post lifecycle, comment threads, category tree, notification fan-out),
translated from the TypeScript service layer
(`PostService`, `CommentService`, `CategoryService`, the mongoose
`Post`/`Comment`/`Category` schemas and their middleware hooks).

Object ids are modelled as `Nat`, timestamps as `Nat`, the database as
lists of documents.  Each service method becomes a function
`DB → ... → Except AppErr (DB × result)`: a thrown `AppError` is an
`Except.error` and (matching the transaction/abort and throw-before-write
structure of the source) leaves the state unchanged.
-/

namespace HanksServer

/-- Domain errors, one constructor per distinct `AppError` throw site used by
the modelled operations (the numeric HTTP codes of the source are noted). -/
inductive AppErr where
  | authorNotFound          -- '作者不存在' / '用户不存在', 404
  | categoryNotFound        -- '分类不存在', 404
  | tagNotFound             -- '部分标签不存在', 404
  | postNotFound            -- '文章不存在', 404
  | notPostAuthor           -- '只有作者才能…', 403
  | alreadyPublished        -- '文章已经处于发布状态', 400
  | scheduleDateNotFuture   -- '定时发布日期必须在未来', 400
  | alreadyLikedPost        -- '已经点赞过这篇文章', 400
  | notLikedPost            -- '还没有点赞过这篇文章', 400
  | commentNotFound         -- '评论不存在', 404
  | parentCommentNotFound   -- '父评论不存在', 404
  | notCommentAuthor        -- '没有权限编辑/删除此评论', 403
  | categoryNameExists      -- '分类名称已存在', 400
  | categorySlugExists      -- '分类slug已存在…', 400
  | parentCategoryNotFound  -- '父分类不存在', 404
  | selfParentCategory      -- '不能将分类自身设为父分类', 400
  | cyclicParentCategory    -- '不能设置子分类为父分类，会导致循环依赖', 400
  deriving DecidableEq, Repr

/-- `PostStatus` enum from `models/Post.ts`. -/
inductive PostStatus where
  | draft
  | published
  | scheduled
  deriving DecidableEq, Repr

/-- A `Post` document (`models/Post.ts`); text-only fields that no modelled
operation branches on (title, content, summary, slug, featuredImage) are
omitted.  `commentCount` is an `Int` because the source applies bare `$inc`
updates that can drive it below zero. -/
structure Post where
  id : Nat
  author : Nat
  category : Nat
  tags : List Nat
  status : PostStatus
  publishDate : Option Nat
  viewCount : Nat
  likes : List Nat
  likeCount : Nat
  commentCount : Int
  deriving DecidableEq, Repr

/-- A `Comment` document (the mongoose `Comment` schema). -/
structure Comment where
  id : Nat
  content : String
  post : Nat
  author : Nat
  parentComment : Option Nat
  level : Nat
  path : String
  likes : List Nat
  likeCount : Nat
  isEdited : Bool
  isApproved : Bool
  isHighlighted : Bool
  isDeleted : Bool
  deletedAt : Option Nat
  createdAt : Nat
  deriving DecidableEq, Repr

/-- A `Category` document (`models/Category.ts`). -/
structure Category where
  id : Nat
  name : String
  slug : String
  description : String
  parentCategory : Option Nat
  order : Nat
  deriving DecidableEq, Repr

/-- Notification type enum from `models/Notification.ts` (only the types
emitted by the modelled operations). -/
inductive NotifType where
  | comment
  | reply
  | likeComment
  deriving DecidableEq, Repr

/-- A persisted `Notification` record (display text omitted). -/
structure Notif where
  ntype : NotifType
  sender : Nat
  recipient : Nat
  relatedPost : Option Nat
  relatedComment : Option Nat
  deriving DecidableEq, Repr

/-- The database: users and tags by id only (only existence is consulted),
plus the `Post`/`Comment`/`Category`/`Notification` collections.  `nextId`
models MongoDB's generation of fresh `_id`s for inserted documents. -/
structure DB where
  users : List Nat
  categories : List Category
  tags : List Nat
  posts : List Post
  comments : List Comment
  notifications : List Notif
  nextId : Nat
  deriving DecidableEq, Repr

/-! ### Generic single-document lookup and update

`findById` models `Model.findById` (the unique-`_id` lookup; on a list it
returns the first match) and `updateById` models writing one document back
by `_id` (`doc.save()` / `findByIdAndUpdate`). -/

def findById (idf : α → Nat) (i : Nat) (l : List α) : Option α :=
  l.find? (fun x => idf x == i)

def updateById (idf : α → Nat) (i : Nat) (v : α) : List α → List α
  | [] => []
  | x :: xs => if idf x == i then v :: xs else x :: updateById idf i v xs

/-! ### PostService (`src/services/postService.ts`, `part_003`) -/

/-- Input of `PostService.createPost` (`CreatePostDTO`); text fields that the
model ignores are omitted, `tagIds` defaulted to `[]` as in `data.tagIds || []`. -/
structure CreatePostDTO where
  authorId : Nat
  categoryId : Nat
  tagIds : List Nat
  status : Option PostStatus
  publishDate : Option Nat
  deriving DecidableEq, Repr

/-- Input of `PostService.updatePost` (`UpdatePostDTO`), fields we model. -/
structure UpdatePostDTO where
  categoryId : Option Nat
  tagIds : Option (List Nat)
  status : Option PostStatus
  publishDate : Option Nat
  deriving DecidableEq, Repr

/-- The `Tag.countDocuments({_id: {$in: tagIds}}) === tagIds.length` existence
check, guarded by `data.tagIds && data.tagIds.length > 0` in `createPost`. -/
def tagsExist (s : DB) (tagIds : List Nat) : Bool :=
  (s.tags.filter (fun t => tagIds.contains t)).length == tagIds.length

/-- The `PostSchema.pre('save')` hook, restricted to the fields we model:
a published post with no `publishDate` gets `publishDate = now`.
(The slug/summary parts of the hook touch only unmodelled text fields.) -/
def postPreSave (now : Nat) (p : Post) : Post :=
  if p.status = .published ∧ p.publishDate = none then { p with publishDate := some now }
  else p

/-- `PostService.createPost`.  Referential checks in source order; if
`status=scheduled` and a `publishDate` was supplied it is stored as given
(no validation); if `status=published` the publish date is set to now. -/
def createPost (s : DB) (d : CreatePostDTO) (now : Nat) : Except AppErr (DB × Post) :=
  if ¬ s.users.contains d.authorId then .error .authorNotFound
  else if (findById Category.id d.categoryId s.categories).isNone then .error .categoryNotFound
  else if d.tagIds.length > 0 ∧ ¬ tagsExist s d.tagIds then .error .tagNotFound
  else
    let st := d.status.getD .draft
    let pd1 : Option Nat :=
      if d.status = some .scheduled ∧ d.publishDate.isSome then d.publishDate else none
    let pd : Option Nat := if d.status = some .published then some now else pd1
    let p := postPreSave now
      { id := s.nextId, author := d.authorId, category := d.categoryId, tags := d.tagIds,
        status := st, publishDate := pd, viewCount := 0, likes := [], likeCount := 0,
        commentCount := 0 }
    .ok ({ s with posts := s.posts ++ [p], nextId := s.nextId + 1 }, p)

/-- `PostService.updatePost`.  A status change into `published` from a
non-published state stamps `publishDate = now`; a change into `scheduled`
takes `data.publishDate || new Date()`.  Applied via `findByIdAndUpdate`,
which bypasses the pre-save hook. -/
def updatePost (s : DB) (postId authorId : Nat) (d : UpdatePostDTO) (now : Nat) :
    Except AppErr (DB × Post) :=
  match findById Post.id postId s.posts with
  | none => .error .postNotFound
  | some post =>
    if post.author ≠ authorId then .error .notPostAuthor
    else
      let pd : Option Nat :=
        match d.status with
        | none => post.publishDate
        | some st' =>
          if st' = .published ∧ post.status ≠ .published then some now
          else if st' = .scheduled then some (d.publishDate.getD now)
          else post.publishDate
      if (match d.categoryId with
          | some cid => (findById Category.id cid s.categories).isNone
          | none => false) then .error .categoryNotFound
      else if (match d.tagIds with
          | some ts => ! tagsExist s ts
          | none => false) then .error .tagNotFound
      else
        let p' : Post :=
          { post with status := d.status.getD post.status, publishDate := pd,
                      category := d.categoryId.getD post.category,
                      tags := d.tagIds.getD post.tags }
        .ok ({ s with posts := updateById Post.id postId p' s.posts }, p')

/-- `PostService.publishPost`: author-only, fails if already published,
sets `status=published` and `publishDate=now` via `post.save()`. -/
def publishPost (s : DB) (postId authorId now : Nat) : Except AppErr (DB × Post) :=
  match findById Post.id postId s.posts with
  | none => .error .postNotFound
  | some post =>
    if post.author ≠ authorId then .error .notPostAuthor
    else if post.status = .published then .error .alreadyPublished
    else
      let p' := postPreSave now { post with status := .published, publishDate := some now }
      .ok ({ s with posts := updateById Post.id postId p' s.posts }, p')

/-- `PostService.unpublishPost`: author-only, sets `status=draft` and saves.
Note: the source does not clear `publishDate`. -/
def unpublishPost (s : DB) (postId authorId now : Nat) : Except AppErr (DB × Post) :=
  match findById Post.id postId s.posts with
  | none => .error .postNotFound
  | some post =>
    if post.author ≠ authorId then .error .notPostAuthor
    else
      let p' := postPreSave now { post with status := .draft }
      .ok ({ s with posts := updateById Post.id postId p' s.posts }, p')

/-- `PostService.schedulePost`: author-only, requires `publishDate > now`,
sets `status=scheduled` and the given `publishDate`. -/
def schedulePost (s : DB) (postId authorId publishDate now : Nat) :
    Except AppErr (DB × Post) :=
  match findById Post.id postId s.posts with
  | none => .error .postNotFound
  | some post =>
    if post.author ≠ authorId then .error .notPostAuthor
    else if publishDate ≤ now then .error .scheduleDateNotFuture
    else
      let p' := postPreSave now { post with status := .scheduled, publishDate := some publishDate }
      .ok ({ s with posts := updateById Post.id postId p' s.posts }, p')

/-- `PostService.likePost`: fails if the user already liked the post,
otherwise pushes the user and recomputes `likeCount = likes.length`. -/
def likePost (s : DB) (postId userId now : Nat) : Except AppErr (DB × Unit) :=
  match findById Post.id postId s.posts with
  | none => .error .postNotFound
  | some post =>
    if post.likes.contains userId then .error .alreadyLikedPost
    else
      let newLikes := post.likes ++ [userId]
      let p' := postPreSave now { post with likes := newLikes, likeCount := newLikes.length }
      .ok ({ s with posts := updateById Post.id postId p' s.posts }, ())

/-- `PostService.unlikePost`: fails if the user has not liked the post,
otherwise filters the user out and recomputes `likeCount`. -/
def unlikePost (s : DB) (postId userId now : Nat) : Except AppErr (DB × Unit) :=
  match findById Post.id postId s.posts with
  | none => .error .postNotFound
  | some post =>
    if ¬ post.likes.contains userId then .error .notLikedPost
    else
      let newLikes := post.likes.filter (fun i => ¬ i == userId)
      let p' := postPreSave now { post with likes := newLikes, likeCount := newLikes.length }
      .ok ({ s with posts := updateById Post.id postId p' s.posts }, ())

/-- MongoDB `publishDate <= now` match: a `null` date never matches `$lte`. -/
def pubDue : Option Nat → Nat → Bool
  | none, _ => false
  | some d, now => d ≤ now

/-- The filter of the sweep's `updateMany`. -/
def sweepMatches (now : Nat) (p : Post) : Bool :=
  p.status == .scheduled && pubDue p.publishDate now

/-- `PostService.publishScheduledPosts`: one bulk `updateMany` setting
`status=published` on every scheduled post whose `publishDate <= now`;
returns `modifiedCount`. -/
def publishScheduledPosts (s : DB) (now : Nat) : DB × Nat :=
  let newPosts :=
    s.posts.map (fun p => if sweepMatches now p then { p with status := .published } else p)
  ({ s with posts := newPosts }, s.posts.countP (sweepMatches now))

/-! ### The post-lifecycle transition system (for reachability claims) -/

/-- One client-visible post-lifecycle operation (the alphabet of claim C2). -/
inductive PostOp where
  | create (d : CreatePostDTO) (now : Nat)
  | update (postId authorId : Nat) (d : UpdatePostDTO) (now : Nat)
  | publish (postId authorId now : Nat)
  | unpublish (postId authorId now : Nat)
  | schedule (postId authorId publishDate now : Nat)
  | sweep (now : Nat)
  deriving Repr

/-- Run one post operation; a failing operation (aborted transaction or
throw before any write) leaves the database unchanged. -/
def stepPost (s : DB) : PostOp → DB
  | .create d now => match createPost s d now with | .ok (s', _) => s' | .error _ => s
  | .update postId authorId d now =>
      match updatePost s postId authorId d now with | .ok (s', _) => s' | .error _ => s
  | .publish postId authorId now =>
      match publishPost s postId authorId now with | .ok (s', _) => s' | .error _ => s
  | .unpublish postId authorId now =>
      match unpublishPost s postId authorId now with | .ok (s', _) => s' | .error _ => s
  | .schedule postId authorId publishDate now =>
      match schedulePost s postId authorId publishDate now with
      | .ok (s', _) => s' | .error _ => s
  | .sweep now => (publishScheduledPosts s now).1

/-- Run a sequence of post operations. -/
def runPosts (s : DB) (ops : List PostOp) : DB :=
  ops.foldl stepPost s

/-- A database holding users/categories/tags but no posts, comments or
notifications: the start state for reachability arguments. -/
def initDB (users : List Nat) (cats : List Category) (tags : List Nat) : DB :=
  { users := users, categories := cats, tags := tags, posts := [], comments := [],
    notifications := [], nextId := 1 }

/-! ### Comment schema hooks and CommentService
(`models/Comment.ts` = `part_014`, `src/services/commentService.ts`) -/

/-- Path extension from the `pre('save')` hook:
`parentComment.path ? path + '/' + parentId : parentId.toString()`. -/
def extendPath (parentPath : String) (parentId : Nat) : String :=
  if parentPath = "" then toString parentId else parentPath ++ "/" ++ toString parentId

/-- `Comment.findById`: the schema's `pre('findOne')` middleware adds
`isDeleted: false` to every single-document lookup. -/
def findComment (s : DB) (i : Nat) : Option Comment :=
  s.comments.find? (fun c => c.id == i && !c.isDeleted)

/-- `Post.findByIdAndUpdate(postId, {$inc: {commentCount: delta}})`:
a no-op when the post does not exist. -/
def incPostCommentCount (s : DB) (postId : Nat) (delta : Int) : DB :=
  match findById Post.id postId s.posts with
  | none => s
  | some p =>
    { s with posts :=
        updateById Post.id postId { p with commentCount := p.commentCount + delta } s.posts }

/-- The `CommentSchema.pre('save')` hook for a NEW comment: with a parent that
the (soft-delete-filtered) lookup finds, copy `level+1` and extend the path and
increment the post's `commentCount`; with no parent, keep `path=''` and
increment the count; with a parent the lookup does not find, change nothing. -/
def commentPreSaveNew (s : DB) (c : Comment) : DB × Comment :=
  match c.parentComment with
  | some pid =>
    match findComment s pid with
    | some pc =>
      (incPostCommentCount s c.post 1,
       { c with level := pc.level + 1, path := extendPath pc.path pid })
    | none => (s, c)
  | none => (incPostCommentCount s c.post 1, { c with path := "" })

/-- Input of `CommentService.createComment`. -/
structure CreateCommentDTO where
  content : String
  postId : Nat
  authorId : Nat
  parentCommentId : Option Nat
  deriving DecidableEq, Repr

/-- `CommentService.createComment`: validates post, author and (if given)
parent; inserts the comment (running the pre-save hook); then attempts the
notification fan-out inside a try/catch whose failure (`notifFails`) is
logged and swallowed. -/
def createComment (s : DB) (d : CreateCommentDTO) (now : Nat) (notifFails : Bool) :
    Except AppErr (DB × Comment) :=
  match findById Post.id d.postId s.posts with
  | none => .error .postNotFound
  | some post =>
    if ¬ s.users.contains d.authorId then .error .authorNotFound
    else if (match d.parentCommentId with
        | some pid => (findComment s pid).isNone
        | none => false) then .error .parentCommentNotFound
    else
      let base : Comment :=
        { id := s.nextId, content := d.content, post := d.postId, author := d.authorId,
          parentComment := d.parentCommentId, level := 1, path := "", likes := [],
          likeCount := 0, isEdited := false, isApproved := true, isHighlighted := false,
          isDeleted := false, deletedAt := none, createdAt := now }
      let hooked := commentPreSaveNew s base
      let s1 := hooked.1
      let newc := hooked.2
      let s2 := { s1 with comments := s1.comments ++ [newc], nextId := s.nextId + 1 }
      let commentEvents : List Notif :=
        if post.author ≠ d.authorId ∧ d.parentCommentId = none then
          [{ ntype := .comment, sender := d.authorId, recipient := post.author,
             relatedPost := some d.postId, relatedComment := some newc.id }]
        else []
      let replyEvents : List Notif :=
        match d.parentCommentId with
        | some pid =>
          match findComment s2 pid with
          | some pc =>
            if pc.author ≠ d.authorId then
              [{ ntype := .reply, sender := d.authorId, recipient := pc.author,
                 relatedPost := some d.postId, relatedComment := some newc.id }]
            else []
          | none => []
        | none => []
      let s3 := if notifFails then s2
                else { s2 with notifications := s2.notifications ++ commentEvents ++ replyEvents }
      .ok (s3, newc)

/-- `CommentService.updateComment`: author-only content edit, sets `isEdited`. -/
def updateComment (s : DB) (commentId authorId : Nat) (content : String) :
    Except AppErr (DB × Comment) :=
  match findComment s commentId with
  | none => .error .commentNotFound
  | some c =>
    if c.author ≠ authorId then .error .notCommentAuthor
    else
      let c' := { c with content := content, isEdited := true }
      .ok ({ s with comments := updateById Comment.id commentId c' s.comments }, c')

/-- `CommentService.deleteComment`: author-or-admin soft delete
(`isDeleted`/`deletedAt`) plus `commentCount` decrement, in one transaction. -/
def deleteComment (s : DB) (commentId userId : Nat) (isAdmin : Bool) (now : Nat) :
    Except AppErr (DB × Unit) :=
  match findComment s commentId with
  | none => .error .commentNotFound
  | some c =>
    if c.author ≠ userId ∧ ¬ isAdmin then .error .notCommentAuthor
    else
      let c' := { c with isDeleted := true, deletedAt := some now }
      let s1 := { s with comments := updateById Comment.id commentId c' s.comments }
      .ok (incPostCommentCount s1 c.post (-1), ())

/-- Insertion sort used to model MongoDB `sort`. -/
def insertSorted (le : α → α → Bool) (x : α) : List α → List α
  | [] => [x]
  | y :: ys => if le x y then x :: y :: ys else y :: insertSorted le x ys

/-- Sort a list by the given before-relation. -/
def sortByKey (le : α → α → Bool) : List α → List α
  | [] => []
  | x :: xs => insertSorted le x (sortByKey le xs)

/-- `sort({isHighlighted: -1, createdAt: -1})`: highlighted first,
then newest first. -/
def commentBefore (a b : Comment) : Bool :=
  if a.isHighlighted ≠ b.isHighlighted then a.isHighlighted else b.createdAt ≤ a.createdAt

/-- `CommentService.getPostComments` (the `data` list): top-level
(`level=1`), approved comments of the post — the `pre('find')` middleware
adds `isDeleted: false` — sorted highlighted-first then newest-first,
paginated by `skip/limit`.  (The per-comment 3-reply preview and the `meta`
envelope are not modelled.) -/
def getPostComments (s : DB) (postId : Nat) (page limit : Nat) : List Comment :=
  let query := fun (c : Comment) => c.post == postId && c.level == 1 && c.isApproved && !c.isDeleted
  let sorted := sortByKey commentBefore (s.comments.filter query)
  (sorted.drop ((page - 1) * limit)).take limit

/-- `CommentService.getCommentReplies`: looks up the parent through the
soft-delete-filtered `findById` (404 when absent), then lists approved,
non-deleted children sorted oldest-first, paginated. -/
def getCommentReplies (s : DB) (commentId : Nat) (page limit : Nat) :
    Except AppErr (List Comment × Comment) :=
  match findComment s commentId with
  | none => .error .commentNotFound
  | some parent =>
    let query := fun (c : Comment) =>
      c.parentComment == some commentId && c.isApproved && !c.isDeleted
    let sorted := sortByKey (fun a b => a.createdAt ≤ b.createdAt) (s.comments.filter query)
    .ok ((sorted.drop ((page - 1) * limit)).take limit, parent)

/-- `CommentService.likeComment`: an already-liking user gets the comment
back unchanged (no error); otherwise push + recompute `likeCount`, then a
best-effort like notification (failure swallowed). -/
def likeComment (s : DB) (commentId userId : Nat) (notifFails : Bool) :
    Except AppErr (DB × Comment) :=
  match findComment s commentId with
  | none => .error .commentNotFound
  | some c =>
    if c.likes.contains userId then .ok (s, c)
    else
      let newLikes := c.likes ++ [userId]
      let c' := { c with likes := newLikes, likeCount := newLikes.length }
      let s1 := { s with comments := updateById Comment.id commentId c' s.comments }
      let s2 :=
        if c.author ≠ userId ∧ ¬ notifFails then
          { s1 with notifications := s1.notifications ++
              [{ ntype := .likeComment, sender := userId, recipient := c.author,
                 relatedPost := none, relatedComment := some commentId }] }
        else s1
      .ok (s2, c')

/-- `CommentService.unlikeComment`: filters the user out of `likes`
(removing nothing when absent) and recomputes `likeCount`; never errors on
a non-liker. -/
def unlikeComment (s : DB) (commentId userId : Nat) : Except AppErr (DB × Comment) :=
  match findComment s commentId with
  | none => .error .commentNotFound
  | some c =>
    let newLikes := c.likes.filter (fun i => ¬ i == userId)
    let c' := { c with likes := newLikes, likeCount := newLikes.length }
    .ok ({ s with comments := updateById Comment.id commentId c' s.comments }, c')

/-- `CommentService.moderateComment`: sets `isApproved` and UNCONDITIONALLY
applies a `+1`/`-1` `commentCount` delta to the post, regardless of the
comment's previous approval state. -/
def moderateComment (s : DB) (commentId : Nat) (isApproved : Bool) :
    Except AppErr (DB × Comment) :=
  match findComment s commentId with
  | none => .error .commentNotFound
  | some c =>
    let c' := { c with isApproved := isApproved }
    let s1 := { s with comments := updateById Comment.id commentId c' s.comments }
    .ok (incPostCommentCount s1 c.post (if isApproved then 1 else -1), c')

/-- `CommentService.highlightComment`: sets the highlight flag. -/
def highlightComment (s : DB) (commentId : Nat) (isHighlighted : Bool) :
    Except AppErr (DB × Comment) :=
  match findComment s commentId with
  | none => .error .commentNotFound
  | some c =>
    let c' := { c with isHighlighted := isHighlighted }
    .ok ({ s with comments := updateById Comment.id commentId c' s.comments }, c')

/-- One comment-thread operation (the alphabet of claims C1 and C6). -/
inductive CommentOp where
  | create (d : CreateCommentDTO) (now : Nat) (notifFails : Bool)
  | update (commentId authorId : Nat) (content : String)
  | delete (commentId userId : Nat) (isAdmin : Bool) (now : Nat)
  | like (commentId userId : Nat) (notifFails : Bool)
  | unlike (commentId userId : Nat)
  | moderate (commentId : Nat) (isApproved : Bool)
  | highlight (commentId : Nat) (isHighlighted : Bool)
  deriving Repr

/-- Run one comment operation; failures leave the database unchanged. -/
def stepComment (s : DB) : CommentOp → DB
  | .create d now notifFails =>
      match createComment s d now notifFails with | .ok (s', _) => s' | .error _ => s
  | .update commentId authorId content =>
      match updateComment s commentId authorId content with | .ok (s', _) => s' | .error _ => s
  | .delete commentId userId isAdmin now =>
      match deleteComment s commentId userId isAdmin now with | .ok (s', _) => s' | .error _ => s
  | .like commentId userId notifFails =>
      match likeComment s commentId userId notifFails with | .ok (s', _) => s' | .error _ => s
  | .unlike commentId userId =>
      match unlikeComment s commentId userId with | .ok (s', _) => s' | .error _ => s
  | .moderate commentId isApproved =>
      match moderateComment s commentId isApproved with | .ok (s', _) => s' | .error _ => s
  | .highlight commentId isHighlighted =>
      match highlightComment s commentId isHighlighted with | .ok (s', _) => s' | .error _ => s

/-! ### CategoryService (`src/services/categoryService.ts`) -/

/-- JS `\w` word characters. -/
def isWordChar (c : Char) : Bool := c.isAlpha || c.isDigit || c == '_'

/-- Collapse each run of non-word characters into a single dash. -/
def collapseDashes : List Char → List Char
  | [] => []
  | c :: cs =>
    let rest := collapseDashes cs
    if isWordChar c then c :: rest
    else match rest with
      | '-' :: _ => rest
      | _ => '-' :: rest

/-- `utils/slugify`: lowercase, trim, replace runs of whitespace/special
characters by a single dash, strip leading/trailing dashes. -/
def slugify (t : String) : String :=
  let collapsed := collapseDashes t.toLower.trim.toList
  String.mk (((collapsed.dropWhile (· == '-')).reverse.dropWhile (· == '-')).reverse)

/-- Input of `CategoryService.updateCategory` (`UpdateCategoryDTO`); the
`parent` field distinguishes absent (`none`), explicit null (`some none`)
and an id (`some (some pid)`). -/
structure UpdateCategoryDTO where
  name : Option String
  description : Option String
  parent : Option (Option Nat)
  order : Option Nat
  deriving DecidableEq, Repr

/-- The name/slug-uniqueness step of `updateCategory` (skipped when the name
is absent or unchanged); on success returns the category with its possibly
regenerated slug. -/
def nameStep (s : DB) (categoryId : Nat) (category : Category) (dname : Option String) :
    Except AppErr Category :=
  match dname with
  | none => .ok category
  | some n =>
    if n = category.name then .ok category
    else if s.categories.any (fun c => c.name == n && !(c.id == categoryId)) then
      .error .categoryNameExists
    else
      let slug := slugify n
      if s.categories.any (fun c => c.slug == slug && !(c.id == categoryId)) then
        .error .categorySlugExists
      else .ok { category with slug := slug }

/-- The `while (currentParent && currentParent.parentCategory)` ancestor walk
of `updateCategory`'s cycle check: starting from the proposed parent, walk up
parent links and report whether `targetId` appears as some ancestor's parent.
The fuel argument models the finitely many iterations the loop makes on an
acyclic ancestor chain (whose categories are pairwise distinct, so at most
`s.categories.length` steps are ever taken); a missing parent document breaks
the walk as in the source. -/
def cycleWalkFind (s : DB) (targetId : Nat) : Nat → Category → Bool
  | 0, _ => false
  | fuel + 1, cur =>
    match cur.parentCategory with
    | none => false
    | some pid =>
      if pid = targetId then true
      else
        match findById Category.id pid s.categories with
        | none => false
        | some nxt => cycleWalkFind s targetId fuel nxt

/-- The parent-validity step of `updateCategory`: self-parent rejection,
parent existence, then the cycle walk. -/
def parentStep (s : DB) (categoryId : Nat) (dparent : Option (Option Nat)) :
    Except AppErr Unit :=
  match dparent with
  | none => .ok ()
  | some po =>
    if po = some categoryId then .error .selfParentCategory
    else
      match po with
      | none => .ok ()
      | some pid =>
        match findById Category.id pid s.categories with
        | none => .error .parentCategoryNotFound
        | some parentCategory =>
          if cycleWalkFind s categoryId s.categories.length parentCategory then
            .error .cyclicParentCategory
          else .ok ()

/-- `CategoryService.updateCategory`: lookup, name/slug checks, parent checks
(self-parent, existence, cycle walk), then the single `category.save()`
inside the transaction. -/
def updateCategory (s : DB) (categoryId : Nat) (d : UpdateCategoryDTO) :
    Except AppErr (DB × Category) :=
  match findById Category.id categoryId s.categories with
  | none => .error .categoryNotFound
  | some category =>
    match nameStep s categoryId category d.name with
    | .error e => .error e
    | .ok cat1 =>
      match parentStep s categoryId d.parent with
      | .error e => .error e
      | .ok _ =>
        let cat2 : Category :=
          { cat1 with
              name := d.name.getD category.name,
              description := d.description.getD category.description,
              parentCategory := match d.parent with
                | none => category.parentCategory
                | some po => po,
              order := d.order.getD category.order }
        .ok ({ s with categories := updateById Category.id categoryId cat2 s.categories }, cat2)

/-- State after `updateCategory` (a failure aborts the transaction and leaves
the database unchanged). -/
def runUpdateCategory (s : DB) (categoryId : Nat) (d : UpdateCategoryDTO) : DB :=
  match updateCategory s categoryId d with
  | .ok (s', _) => s'
  | .error _ => s

/-- State after `likePost` (a failure leaves the database unchanged). -/
def runLikePost (s : DB) (postId userId now : Nat) : DB :=
  match likePost s postId userId now with
  | .ok (s', _) => s'
  | .error _ => s

/-- State after `unlikePost` (a failure leaves the database unchanged). -/
def runUnlikePost (s : DB) (postId userId now : Nat) : DB :=
  match unlikePost s postId userId now with
  | .ok (s', _) => s'
  | .error _ => s

/-- `ChainTo s target c l`: following parent links upward from category `c`
through the intermediate categories `l` (each found by its id in `s`), the
last category's parent id is `target`.  `∃ l, ChainTo s x.id d l` is exactly
"`d` is a descendant of `x`" in state `s`. -/
def ChainTo (s : DB) (target : Nat) : Category → List Category → Prop
  | c, [] => c.parentCategory = some target
  | c, c' :: rest =>
    c.parentCategory = some c'.id ∧
    findById Category.id c'.id s.categories = some c' ∧
    ChainTo s target c' rest

/-! ### Derived queries and concrete scenario states -/

/-- The number of comments on a post that are approved and not soft-deleted:
the quantity `Post.commentCount` is supposed to track. -/
def approvedVisibleCount (s : DB) (postId : Nat) : Nat :=
  s.comments.countP (fun c => c.post == postId && c.isApproved && !c.isDeleted)

/-- All published posts carry a publish date. -/
def PublishedHasDate (s : DB) : Prop :=
  ∀ p ∈ s.posts, p.status = .published → p.publishDate ≠ none

/-- A category used by the scenario states. -/
def cat0 : Category := ⟨100, "c", "c", "", none, 0⟩

/-- C1 scenario: a post by user 1. -/
def c1db1 : DB := stepPost (initDB [1, 2] [cat0] []) (.create ⟨1, 100, [], none, none⟩ 10)

/-- C1 scenario: user 2 comments on the post (comment id 2, auto-approved). -/
def c1db2 : DB := stepComment c1db1 (.create ⟨"hi", 1, 2, none⟩ 11 false)

/-- C1 scenario: an admin re-approves the already-approved comment. -/
def c1db3 : DB := stepComment c1db2 (.moderate 2 true)

/-- C2 counterexample state: publish a post, then unpublish it. -/
def c2db : DB :=
  runPosts (initDB [1] [cat0] [])
    [.create ⟨1, 100, [], some .published, none⟩ 10, .unpublish 1 1 11]

/-- C2 witness state: a directly published post. -/
def c2wdb : DB := runPosts (initDB [1] [cat0] []) [.create ⟨1, 100, [], some .published, none⟩ 5]

/-- C4 scenario: a post by user 1. -/
def c4db1 : DB := stepPost (initDB [1, 2] [cat0] []) (.create ⟨1, 100, [], none, none⟩ 10)

/-- C4 scenario: top-level comment A (id 2) by user 2. -/
def c4db2 : DB := stepComment c4db1 (.create ⟨"A", 1, 2, none⟩ 20 false)

/-- C4 scenario: reply B (id 3) by user 1 under A. -/
def c4db3 : DB := stepComment c4db2 (.create ⟨"B", 1, 1, some 2⟩ 21 false)

/-- C4 scenario: A's author soft-deletes A. -/
def c4db : DB := stepComment c4db3 (.delete 2 2 false 22)

/-- C7/C10 witness state: post 1 liked by user 2, comment 5 liked by user 2. -/
def c7db : DB :=
  { initDB [1, 2] [cat0] [] with
      posts := [⟨1, 1, 100, [], .published, some 4, 0, [2], 1, 1⟩],
      comments := [⟨5, "hi", 1, 1, none, 1, "", [2], 1, false, true, false, false, none, 6⟩],
      nextId := 6 }

/-- C8 witness state: category 2 is a child of category 1. -/
def c8db : DB :=
  { initDB [1] [] [] with
      categories := [⟨1, "x", "x", "", none, 0⟩, ⟨2, "d", "d", "", some 1, 1⟩] }

/-! ## Theorems -/

/-! ### Generic lemmas about `findById`/`updateById` -/

theorem mem_updateById {idf : α → Nat} {i : Nat} {v : α} {l : List α} {x : α}
    (h : x ∈ updateById idf i v l) : x = v ∨ x ∈ l := by
  induction l with
  | nil => simp [updateById] at h
  | cons y ys ih =>
    simp only [updateById] at h
    split at h
    · rcases List.mem_cons.mp h with h1 | h1
      · exact Or.inl h1
      · exact Or.inr (List.mem_cons_of_mem _ h1)
    · rcases List.mem_cons.mp h with h1 | h1
      · exact Or.inr (h1 ▸ List.mem_cons_self _ _)
      · rcases ih h1 with h2 | h2
        · exact Or.inl h2
        · exact Or.inr (List.mem_cons_of_mem _ h2)

theorem updateById_self {idf : α → Nat} {i : Nat} {c : α} {l : List α}
    (h : findById idf i l = some c) : updateById idf i c l = l := by
  induction l with
  | nil => simp [findById] at h
  | cons y ys ih =>
    simp only [findById, List.find?] at h
    simp only [updateById]
    by_cases hy : idf y == i
    · simp only [hy, cond_true] at h
      cases h
      simp [hy]
    · simp only [Bool.not_eq_true] at hy
      simp only [hy, cond_false] at h
      simp [hy, ih h]

theorem findById_updateById {idf : α → Nat} {i : Nat} {v : α} {l : List α} {x : α}
    (h : findById idf i l = some x) (hv : idf v = i) :
    findById idf i (updateById idf i v l) = some v := by
  induction l with
  | nil => simp [findById] at h
  | cons y ys ih =>
    simp only [findById, List.find?] at h
    simp only [updateById]
    by_cases hy : idf y == i
    · have hy' : idf y = i := by simpa using hy
      simp [findById, List.find?, hv, hy']
    · simp only [Bool.not_eq_true] at hy
      simp only [hy, cond_false] at h
      simpa [findById, List.find?, hy] using ih h

theorem length_updateById (idf : α → Nat) (i : Nat) (v : α) (l : List α) :
    (updateById idf i v l).length = l.length := by
  induction l with
  | nil => rfl
  | cons y ys ih => simp only [updateById]; split <;> simp [ih]

theorem findById_mem {idf : α → Nat} {i : Nat} {l : List α} {x : α}
    (h : findById idf i l = some x) : x ∈ l :=
  List.mem_of_find?_eq_some h

theorem findById_id {idf : α → Nat} {i : Nat} {l : List α} {x : α}
    (h : findById idf i l = some x) : idf x = i := by
  have := List.find?_some h
  simpa using this

/-! ### Claim C1 (code bug: moderation double-adjusts `commentCount`) -/

/-- Claim C1: `Post.commentCount` should always equal the number of approved,
non-deleted comments of the post, after any interleaving of comment create,
soft-delete and moderate.  The code violates this: `moderateComment` applies
its `+1`/`-1` delta unconditionally, so re-approving the already-approved
comment 2 drives the post's `commentCount` to 2 while exactly 1 approved
non-deleted comment exists. -/
theorem c1_moderate_double_count :
    (findById Post.id 1 c1db3.posts).map Post.commentCount = some 2 ∧
    approvedVisibleCount c1db3 1 = 1 := by
  constructor <;> decide

/-! ### Claim C2 (corrected: `publishDate` is not `iff`-tied to status) -/

/-- Claim C2, counterexample: after creating a published post and then
unpublishing it, the post is a draft that still carries `publishDate = 10`
(`unpublishPost` never clears the date), so "publishDate is non-null iff
status is published or scheduled" fails on reachable states. -/
theorem c2_publishDate_iff_counterexample :
    (findById Post.id 1 c2db.posts).map (fun p => (p.status, p.publishDate))
      = some (.draft, some 10) ∧
    ¬ (∀ p ∈ c2db.posts, (p.publishDate ≠ none ↔ (p.status = .published ∨ p.status = .scheduled))) := by
  constructor <;> decide

/-- Any value written through the `pre('save')` hook satisfies
"published implies dated": the hook backfills a missing date on a published
document and status is never altered. -/
theorem postPreSave_ok (now : Nat) (q : Post) :
    (postPreSave now q).status = .published → (postPreSave now q).publishDate ≠ none := by
  by_cases hc : q.status = .published ∧ q.publishDate = none
  · simp [postPreSave, hc]
  · simp only [postPreSave, if_neg hc]
    intro hst hnone
    exact hc ⟨hst, hnone⟩

theorem pubDue_some {pd : Option Nat} {now : Nat} (h : pubDue pd now = true) : pd ≠ none := by
  cases pd <;> simp [pubDue] at h ⊢

/-- On success, `createPost` appends one hook-processed post. -/
theorem createPost_posts {s : DB} {d : CreatePostDTO} {now : Nat} {s' : DB} {p : Post}
    (hr : createPost s d now = .ok (s', p)) :
    ∃ q, s'.posts = s.posts ++ [postPreSave now q] := by
  unfold createPost at hr
  split at hr
  · exact absurd hr (by simp)
  · split at hr
    · exact absurd hr (by simp)
    · split at hr
      · exact absurd hr (by simp)
      · simp only [Except.ok.injEq, Prod.mk.injEq] at hr
        exact ⟨_, by rw [← hr.1]⟩

/-- On success, `publishPost` rewrites one post through the save hook. -/
theorem publishPost_posts {s : DB} {postId authorId now : Nat} {s' : DB} {p : Post}
    (hr : publishPost s postId authorId now = .ok (s', p)) :
    ∃ q, s'.posts = updateById Post.id postId (postPreSave now q) s.posts := by
  unfold publishPost at hr
  split at hr
  · exact absurd hr (by simp)
  · split at hr
    · exact absurd hr (by simp)
    · split at hr
      · exact absurd hr (by simp)
      · simp only [Except.ok.injEq, Prod.mk.injEq] at hr
        exact ⟨_, by rw [← hr.1]⟩

/-- On success, `unpublishPost` rewrites one post through the save hook. -/
theorem unpublishPost_posts {s : DB} {postId authorId now : Nat} {s' : DB} {p : Post}
    (hr : unpublishPost s postId authorId now = .ok (s', p)) :
    ∃ q, s'.posts = updateById Post.id postId (postPreSave now q) s.posts := by
  unfold unpublishPost at hr
  split at hr
  · exact absurd hr (by simp)
  · split at hr
    · exact absurd hr (by simp)
    · simp only [Except.ok.injEq, Prod.mk.injEq] at hr
      exact ⟨_, by rw [← hr.1]⟩

/-- On success, `schedulePost` rewrites one post through the save hook. -/
theorem schedulePost_posts {s : DB} {postId authorId publishDate now : Nat} {s' : DB} {p : Post}
    (hr : schedulePost s postId authorId publishDate now = .ok (s', p)) :
    ∃ q, s'.posts = updateById Post.id postId (postPreSave now q) s.posts := by
  unfold schedulePost at hr
  split at hr
  · exact absurd hr (by simp)
  · split at hr
    · exact absurd hr (by simp)
    · split at hr
      · exact absurd hr (by simp)
      · simp only [Except.ok.injEq, Prod.mk.injEq] at hr
        exact ⟨_, by rw [← hr.1]⟩

/-- On success, `updatePost` rewrites the found post to a patched version
that preserves "published implies dated". -/
theorem updatePost_posts {s : DB} {postId authorId : Nat} {d : UpdatePostDTO} {now : Nat}
    {s' : DB} {p' : Post} (hr : updatePost s postId authorId d now = .ok (s', p')) :
    ∃ post ∈ s.posts, s'.posts = updateById Post.id postId p' s.posts ∧
      ((post.status = .published → post.publishDate ≠ none) →
        (p'.status = .published → p'.publishDate ≠ none)) := by
  unfold updatePost at hr
  split at hr
  · exact absurd hr (by simp)
  · rename_i post hfind
    split at hr
    · exact absurd hr (by simp)
    · split at hr
      · -- d.status = none: publishDate and status are left unchanged
        rename_i hst
        split at hr
        · exact absurd hr (by simp)
        · split at hr
          · exact absurd hr (by simp)
          · simp only [Except.ok.injEq, Prod.mk.injEq] at hr
            refine ⟨post, List.mem_of_find?_eq_some hfind, by rw [← hr.1, ← hr.2], ?_⟩
            intro hinv
            rw [← hr.2]
            simp only [hst, Option.getD_none]
            exact hinv
      · -- d.status = some st': three publish-date leaves
        rename_i st' hst
        split at hr
        · -- pd = some now (into published from non-published)
          split at hr
          · exact absurd hr (by simp)
          · split at hr
            · exact absurd hr (by simp)
            · simp only [Except.ok.injEq, Prod.mk.injEq] at hr
              refine ⟨post, List.mem_of_find?_eq_some hfind, by rw [← hr.1, ← hr.2], ?_⟩
              intro hinv
              rw [← hr.2]
              simp
        · split at hr
          · -- pd = data.publishDate || now (into scheduled)
            split at hr
            · exact absurd hr (by simp)
            · split at hr
              · exact absurd hr (by simp)
              · simp only [Except.ok.injEq, Prod.mk.injEq] at hr
                refine ⟨post, List.mem_of_find?_eq_some hfind, by rw [← hr.1, ← hr.2], ?_⟩
                intro hinv
                rw [← hr.2]
                simp
          · -- pd = post.publishDate (no status-driven stamp)
            rename_i hc1 hc2
            split at hr
            · exact absurd hr (by simp)
            · split at hr
              · exact absurd hr (by simp)
              · simp only [Except.ok.injEq, Prod.mk.injEq] at hr
                refine ⟨post, List.mem_of_find?_eq_some hfind, by rw [← hr.1, ← hr.2], ?_⟩
                intro hinv
                rw [← hr.2]
                simp only [hst, Option.getD_some]
                intro hpub
                have hps : post.status = PostStatus.published := by
                  by_contra hne
                  exact hc1 ⟨hpub, hne⟩
                simpa using hinv hps

/-- `stepPost` preserves "published implies dated". -/
theorem stepPost_preserves (s : DB) (op : PostOp) (h : PublishedHasDate s) :
    PublishedHasDate (stepPost s op) := by
  cases op with
  | create d now =>
    simp only [stepPost]
    cases hr : createPost s d now with
    | error e => exact h
    | ok r =>
      obtain ⟨s', p⟩ := r
      obtain ⟨q, hq⟩ := createPost_posts hr
      intro x hx
      rw [hq] at hx
      rcases List.mem_append.mp hx with hx | hx
      · exact h x hx
      · simp only [List.mem_singleton] at hx
        subst hx
        exact postPreSave_ok now q
  | update postId authorId d now =>
    simp only [stepPost]
    cases hr : updatePost s postId authorId d now with
    | error e => exact h
    | ok r =>
      obtain ⟨s', p'⟩ := r
      obtain ⟨post, hmem, hposts, htrans⟩ := updatePost_posts hr
      intro x hx
      rw [hposts] at hx
      rcases mem_updateById hx with hx | hx
      · subst hx
        exact htrans (h post hmem)
      · exact h x hx
  | publish postId authorId now =>
    simp only [stepPost]
    cases hr : publishPost s postId authorId now with
    | error e => exact h
    | ok r =>
      obtain ⟨s', p⟩ := r
      obtain ⟨q, hq⟩ := publishPost_posts hr
      intro x hx
      rw [hq] at hx
      rcases mem_updateById hx with hx | hx
      · subst hx; exact postPreSave_ok now q
      · exact h x hx
  | unpublish postId authorId now =>
    simp only [stepPost]
    cases hr : unpublishPost s postId authorId now with
    | error e => exact h
    | ok r =>
      obtain ⟨s', p⟩ := r
      obtain ⟨q, hq⟩ := unpublishPost_posts hr
      intro x hx
      rw [hq] at hx
      rcases mem_updateById hx with hx | hx
      · subst hx; exact postPreSave_ok now q
      · exact h x hx
  | schedule postId authorId publishDate now =>
    simp only [stepPost]
    cases hr : schedulePost s postId authorId publishDate now with
    | error e => exact h
    | ok r =>
      obtain ⟨s', p⟩ := r
      obtain ⟨q, hq⟩ := schedulePost_posts hr
      intro x hx
      rw [hq] at hx
      rcases mem_updateById hx with hx | hx
      · subst hx; exact postPreSave_ok now q
      · exact h x hx
  | sweep now =>
    simp only [stepPost, publishScheduledPosts]
    intro x hx
    simp only [List.mem_map] at hx
    obtain ⟨p, hp, hx⟩ := hx
    by_cases hm : sweepMatches now p = true
    · rw [if_pos hm] at hx
      subst hx
      intro _
      simp only [sweepMatches, Bool.and_eq_true] at hm
      exact pubDue_some hm.2
    · rw [if_neg hm] at hx
      subst hx
      exact h p hp

/-- Claim C2, amended: on every state reachable by create/update/publish/
unpublish/schedule/sweep sequences, only the forward half survives, and only
for `published`: a published post always has a non-null `publishDate`.
(The converse fails — see the counterexample — and a scheduled post created
without a supplied `publishDate` has a null one.) -/
theorem c2_published_implies_publishDate (users : List Nat) (cats : List Category)
    (tags : List Nat) (ops : List PostOp) :
    PublishedHasDate (runPosts (initDB users cats tags) ops) := by
  suffices hgen : ∀ (s : DB), PublishedHasDate s → PublishedHasDate (runPosts s ops) by
    exact hgen _ (by intro p hp; simp [initDB] at hp)
  induction ops with
  | nil => intro s hs; exact hs
  | cons op rest ih =>
    intro s hs
    exact ih _ (stepPost_preserves s op hs)

/-- Witness for C2 (amended), at a concrete one-step run. -/
theorem c2_published_implies_publishDate_witness :
    (⟨1, 1, 100, [], .published, some 5, 0, [], 0, 0⟩ : Post).publishDate ≠ none := by
  exact c2_published_implies_publishDate [1] [cat0] []
    [.create ⟨1, 100, [], some .published, none⟩ 5]
    ⟨1, 1, 100, [], .published, some 5, 0, [], 0, 0⟩ (by decide) (by decide)

/-! ### Claim C3 (corrected: create does not validate the scheduled date) -/

/-- Claim C3, counterexample: creating a post with `status=scheduled` and a
`publishDate` strictly in the past (3 < 10 = now) succeeds and stores the
past date — `createPost` has no strictly-future check at all (only
`schedulePost` does). -/
theorem c3_create_scheduled_counterexample :
    (createPost (initDB [1] [cat0] []) ⟨1, 100, [], some .scheduled, some 3⟩ 10).toOption.map
        (fun x => (x.2.status, x.2.publishDate)) = some (.scheduled, some 3) ∧
    3 < 10 := by
  constructor <;> decide

/-- Claim C3, amended: `createPost` with `status=scheduled` performs no
`publishDate` validation: whenever the author, category and tags exist it
succeeds, storing the supplied `publishDate` verbatim (null when absent),
past dates included. -/
theorem c3_create_scheduled_no_validation (s : DB) (d : CreatePostDTO) (now : Nat)
    (hu : s.users.contains d.authorId = true)
    (hc : (findById Category.id d.categoryId s.categories).isSome = true)
    (ht : d.tagIds.length > 0 → tagsExist s d.tagIds = true)
    (hs : d.status = some .scheduled) :
    ∃ s' p, createPost s d now = .ok (s', p) ∧ p.status = .scheduled ∧
      p.publishDate = d.publishDate := by
  unfold createPost
  have h1 : ¬ (¬ s.users.contains d.authorId = true) := by
    intro hx
    exact hx hu
  rw [if_neg h1]
  have h2 : ¬ ((findById Category.id d.categoryId s.categories).isNone = true) := by
    obtain ⟨c, hcv⟩ := Option.isSome_iff_exists.mp hc
    simp [hcv]
  rw [if_neg h2]
  have h3 : ¬ (d.tagIds.length > 0 ∧ ¬ tagsExist s d.tagIds = true) := by
    rintro ⟨hl, hnt⟩
    exact hnt (ht hl)
  rw [if_neg h3]
  refine ⟨_, _, rfl, ?_, ?_⟩
  · simp [postPreSave, hs]
  · cases hpd : d.publishDate <;> simp [postPreSave, hs, hpd]

/-- Witness for C3 (amended) at the concrete past-date input. -/
theorem c3_create_scheduled_no_validation_witness :
    ∃ s' p, createPost (initDB [1] [cat0] []) ⟨1, 100, [], some .scheduled, some 3⟩ 10
        = .ok (s', p) ∧ p.status = .scheduled ∧ p.publishDate = some 3 :=
  c3_create_scheduled_no_validation (initDB [1] [cat0] []) ⟨1, 100, [], some .scheduled, some 3⟩
    10 (by decide) (by decide) (by decide) (by decide)

/-! ### Claim C4 (corrected: replies of a soft-deleted parent are unreachable) -/

/-- Claim C4, counterexample: after comment A (id 2), reply B (id 3) and the
soft-delete of A, `getCommentReplies(A)` does NOT succeed: the parent lookup
goes through the `pre('findOne')` `isDeleted: false` filter, so it throws
'评论不存在' (NotFound) instead of returning B. -/
theorem c4_deleted_parent_replies_counterexample :
    getCommentReplies c4db 2 1 10 = .error .commentNotFound := by
  rfl

/-- Claim C4, amended: after the scenario, `listByPost` excludes A, but
`listReplies(A)` fails NotFound (rather than returning B); B itself stays
stored, visible to queries, with its parent link, level and path unchanged. -/
theorem c4_soft_delete_visibility_amended :
    (getPostComments c4db 1 1 10).all (fun c => ¬ c.id == 2) = true ∧
    getCommentReplies c4db 2 1 10 = .error .commentNotFound ∧
    (findById Comment.id 3 c4db.comments).map
        (fun b => (b.parentComment, b.level, b.path, b.isDeleted))
      = some (some 2, 2, "2", false) := by
  refine ⟨by decide, by rfl, by decide⟩

/-! ### Claim C5 (confirmed: the scheduled-publish sweep) -/

/-- Claim C5: `publishScheduledPosts` publishes exactly the scheduled posts
with a due `publishDate` (pointwise over the collection), leaves every
`publishDate` unchanged, returns the count of posts it changed, and run
again on its own output it changes nothing and returns 0. -/
theorem c5_sweep_exact_count_idempotent (s : DB) (now : Nat) (i : Nat) :
    ((publishScheduledPosts s now).1.posts.get? i
       = (s.posts.get? i).map
           (fun p => if sweepMatches now p then { p with status := PostStatus.published } else p)) ∧
    (publishScheduledPosts s now).1.posts.map Post.publishDate = s.posts.map Post.publishDate ∧
    (publishScheduledPosts s now).2 = s.posts.countP (sweepMatches now) ∧
    publishScheduledPosts (publishScheduledPosts s now).1 now = ((publishScheduledPosts s now).1, 0) := by
  have hfix : ∀ p : Post,
      sweepMatches now (if sweepMatches now p then { p with status := PostStatus.published } else p)
        = false := by
    intro p
    by_cases hm : sweepMatches now p = true
    · rw [if_pos hm]
      simp [sweepMatches]
    · rw [if_neg hm]
      exact eq_false_of_ne_true hm
  refine ⟨?_, ?_, rfl, ?_⟩
  · simp [publishScheduledPosts, List.get?_map]
  · simp only [publishScheduledPosts, List.map_map]
    apply List.map_congr_left
    intro p _
    by_cases hm : sweepMatches now p = true <;> simp [hm, Function.comp]
  · have hzero : ((publishScheduledPosts s now).1.posts.countP (sweepMatches now)) = 0 := by
      rw [List.countP_eq_zero]
      intro x hx
      simp only [publishScheduledPosts, List.mem_map] at hx
      obtain ⟨p, _, hp⟩ := hx
      rw [← hp]
      simp [hfix p]
    have hid : ∀ x ∈ (publishScheduledPosts s now).1.posts,
        (if sweepMatches now x then { x with status := PostStatus.published } else x) = x := by
      intro x hx
      simp only [publishScheduledPosts, List.mem_map] at hx
      obtain ⟨p, _, hp⟩ := hx
      rw [← hp]
      simp [hfix p]
    have hsame : (publishScheduledPosts s now).1.posts.map
        (fun p => if sweepMatches now p then { p with status := PostStatus.published } else p)
        = (publishScheduledPosts s now).1.posts := by
      have h2 := List.map_congr_left hid
      simpa using h2
    simp only [publishScheduledPosts] at hsame hzero ⊢
    rw [hsame, hzero]

/-! ### Claims C7 and C10 (confirmed: the like/unlike asymmetry) -/

/-- If the plain by-id lookup finds a non-deleted comment, the
soft-delete-filtered lookup (`pre('findOne')`) finds the same one. -/
theorem find?_not_deleted {l : List Comment} {cid : Nat} {c : Comment}
    (h : l.find? (fun x => x.id == cid) = some c) (hd : c.isDeleted = false) :
    l.find? (fun x => x.id == cid && !x.isDeleted) = some c := by
  induction l with
  | nil => simp at h
  | cons y ys ih =>
    simp only [List.find?] at h ⊢
    by_cases hy : (y.id == cid) = true
    · simp only [hy, cond_true] at h
      cases h
      simp [hy, hd]
    · simp only [Bool.not_eq_true] at hy
      simp only [hy, cond_false] at h ⊢
      simpa using ih h

/-- `findComment` agrees with the raw by-id lookup on non-deleted comments. -/
theorem findComment_of_findById {s : DB} {cid : Nat} {c : Comment}
    (h : findById Comment.id cid s.comments = some c) (hd : c.isDeleted = false) :
    findComment s cid = some c :=
  find?_not_deleted h hd

/-- Claim C7: liking a post twice fails with the already-liked (`Conflict`)
error and leaves the database unchanged, while liking a comment twice is a
silent no-op returning the comment unchanged — the documented asymmetry. -/
theorem c7_like_asymmetry (s : DB) (postId userId now : Nat) (p : Post)
    (cs : DB) (commentId userId2 : Nat) (c : Comment) (notifFails : Bool)
    (hp : findById Post.id postId s.posts = some p)
    (hpl : p.likes.contains userId = true)
    (hc : findById Comment.id commentId cs.comments = some c)
    (hcd : c.isDeleted = false)
    (hcl : c.likes.contains userId2 = true) :
    (likePost s postId userId now = .error .alreadyLikedPost ∧
     runLikePost s postId userId now = s) ∧
    likeComment cs commentId userId2 notifFails = .ok (cs, c) := by
  have hfc : findComment cs commentId = some c := findComment_of_findById hc hcd
  constructor
  · have he : likePost s postId userId now = .error .alreadyLikedPost := by
      unfold likePost
      simp only [hp]
      rw [if_pos hpl]
    refine ⟨he, ?_⟩
    unfold runLikePost
    rw [he]
  · unfold likeComment
    simp only [hfc]
    rw [if_pos hcl]

/-- Witness for C7 at a concrete state (post 1 and comment 5 already liked
by user 2). -/
theorem c7_like_asymmetry_witness :
    (likePost c7db 1 2 99 = .error .alreadyLikedPost ∧ runLikePost c7db 1 2 99 = c7db) ∧
    likeComment c7db 5 2 false
      = .ok (c7db, ⟨5, "hi", 1, 1, none, 1, "", [2], 1, false, true, false, false, none, 6⟩) :=
  c7_like_asymmetry c7db 1 2 99 ⟨1, 1, 100, [], .published, some 4, 0, [2], 1, 1⟩
    c7db 5 2 ⟨5, "hi", 1, 1, none, 1, "", [2], 1, false, true, false, false, none, 6⟩ false
    (by rfl) (by decide) (by rfl) (by rfl) (by decide)

/-- Claim C10: unliking a post the user never liked fails with the
not-yet-liked error and leaves the database unchanged, while unliking a
comment the user never liked silently succeeds, returning the comment with
`likes` and `likeCount` unchanged. -/
theorem c10_unlike_asymmetry (s : DB) (postId userId now : Nat) (p : Post)
    (cs : DB) (commentId userId2 : Nat) (c : Comment)
    (hp : findById Post.id postId s.posts = some p)
    (hpl : p.likes.contains userId = false)
    (hc : findById Comment.id commentId cs.comments = some c)
    (hcd : c.isDeleted = false)
    (hcl : c.likes.contains userId2 = false)
    (hlc : c.likeCount = c.likes.length) :
    (unlikePost s postId userId now = .error .notLikedPost ∧
     runUnlikePost s postId userId now = s) ∧
    unlikeComment cs commentId userId2 = .ok (cs, c) := by
  have hfc : findComment cs commentId = some c := findComment_of_findById hc hcd
  constructor
  · have he : unlikePost s postId userId now = .error .notLikedPost := by
      unfold unlikePost
      simp only [hp]
      rw [if_pos (by rw [hpl]; decide)]
    refine ⟨he, ?_⟩
    unfold runUnlikePost
    rw [he]
  · unfold unlikeComment
    simp only [hfc]
    have hmem : ∀ a ∈ c.likes, (a == userId2) = false := by
      intro a ha
      by_contra hne
      rw [Bool.not_eq_false] at hne
      have haeq : a = userId2 := by simpa using hne
      have hcon : c.likes.contains userId2 = true := by
        subst haeq
        rw [List.contains_eq_any_beq]
        exact List.any_eq_true.mpr ⟨a, ha, by simp⟩
      rw [hcon] at hcl
      simp at hcl
    have hfilter : c.likes.filter (fun i => ¬ i == userId2) = c.likes := by
      apply List.filter_eq_self.mpr
      intro a ha
      simp [hmem a ha]
    rw [hfilter]
    have hcc : ({ c with likes := c.likes, likeCount := c.likes.length } : Comment) = c := by
      rw [← hlc]
    rw [hcc, updateById_self hc]

/-- Witness for C10 at a concrete state (user 1 has liked neither post 1 nor
comment 5). -/
theorem c10_unlike_asymmetry_witness :
    (unlikePost c7db 1 1 99 = .error .notLikedPost ∧ runUnlikePost c7db 1 1 99 = c7db) ∧
    unlikeComment c7db 5 1
      = .ok (c7db, ⟨5, "hi", 1, 1, none, 1, "", [2], 1, false, true, false, false, none, 6⟩) :=
  c10_unlike_asymmetry c7db 1 1 99 ⟨1, 1, 100, [], .published, some 4, 0, [2], 1, 1⟩
    c7db 5 1 ⟨5, "hi", 1, 1, none, 1, "", [2], 1, false, true, false, false, none, 6⟩
    (by rfl) (by decide) (by rfl) (by rfl) (by decide) (by rfl)

/-! ### Claim C9 (confirmed: notification failure never fails the mutation) -/

theorem incPostCommentCount_comments (s : DB) (postId : Nat) (k : Int) :
    (incPostCommentCount s postId k).comments = s.comments := by
  unfold incPostCommentCount
  split <;> rfl

/-- The pre-save hook of a new comment never touches the comment collection. -/
theorem commentPreSaveNew_comments (s : DB) (b : Comment) :
    (commentPreSaveNew s b).1.comments = s.comments := by
  unfold commentPreSaveNew
  split
  · split
    · exact incPostCommentCount_comments s _ 1
    · rfl
  · exact incPostCommentCount_comments s _ 1

theorem incPostCommentCount_find (s : DB) (postId : Nat) (k : Int) (p : Post)
    (hp : findById Post.id postId s.posts = some p) :
    findById Post.id postId (incPostCommentCount s postId k).posts
      = some { p with commentCount := p.commentCount + k } := by
  unfold incPostCommentCount
  simp only [hp]
  have hid : Post.id p = postId := findById_id hp
  exact findById_updateById hp hid

/-- When the parent (if any) is found, the hook's state effect is exactly the
`commentCount` increment on the comment's post. -/
theorem commentPreSaveNew_fst (s : DB) (b : Comment)
    (h : match b.parentComment with
         | some pid => (findComment s pid).isSome = true
         | none => True) :
    (commentPreSaveNew s b).1 = incPostCommentCount s b.post 1 := by
  unfold commentPreSaveNew
  cases hb : b.parentComment with
  | none => rfl
  | some pid =>
    rw [hb] at h
    obtain ⟨pc, hpc⟩ := Option.isSome_iff_exists.mp h
    simp only [hpc]

/-- Claim C9: if `createComment` succeeds when notification creation works,
then with notification creation failing it still succeeds, returns the same
created comment, commits the same comment insert (appended to the
collection) and the same `commentCount` increment; only the notification
collection differs.  The failure is swallowed, never propagated. -/
theorem c9_notification_failure_isolated (s : DB) (d : CreateCommentDTO) (now : Nat)
    (s2 : DB) (c : Comment)
    (h : createComment s d now false = .ok (s2, c)) :
    ∃ s1, createComment s d now true = .ok (s1, c) ∧
      s1.comments = s2.comments ∧ s1.posts = s2.posts ∧
      s1.comments = s.comments ++ [c] ∧
      (∀ p, findById Post.id d.postId s.posts = some p →
        findById Post.id d.postId s1.posts = some { p with commentCount := p.commentCount + 1 }) := by
  unfold createComment at h ⊢
  split at h
  · exact absurd h (by simp)
  · rename_i post hfind
    simp only [hfind]
    split at h
    · exact absurd h (by simp)
    · rename_i hu
      rw [if_neg hu]
      split at h
      · exact absurd h (by simp)
      · rename_i hparent
        rw [if_neg hparent]
        simp only [Except.ok.injEq, Prod.mk.injEq] at h
        obtain ⟨hs2, hcc⟩ := h
        rw [if_neg (by decide)] at hs2
        refine ⟨_, by simp only [hcc, if_true]; rfl, ?_, ?_, ?_, ?_⟩
        · rw [← hs2, hcc]
        · rw [← hs2]
        · simp only [commentPreSaveNew_comments]
        · intro p hp
          have hpp : p = post := by
            injection hp with h2
            exact h2.symm
          subst hpp
          have hhook : (commentPreSaveNew s
              { id := s.nextId, content := d.content, post := d.postId, author := d.authorId,
                parentComment := d.parentCommentId, level := 1, path := "", likes := [],
                likeCount := 0, isEdited := false, isApproved := true, isHighlighted := false,
                isDeleted := false, deletedAt := none, createdAt := now }).1
              = incPostCommentCount s d.postId 1 := by
            apply commentPreSaveNew_fst
            cases hpc : d.parentCommentId with
            | none => exact True.intro
            | some pid =>
              rw [hpc] at hparent
              cases hfc : findComment s pid with
              | none => exact absurd (by simp [hfc]) hparent
              | some pc => simp [hfc]
          show findById Post.id d.postId
              (commentPreSaveNew s
                { id := s.nextId, content := d.content, post := d.postId, author := d.authorId,
                  parentComment := d.parentCommentId, level := 1, path := "", likes := [],
                  likeCount := 0, isEdited := false, isApproved := true, isHighlighted := false,
                  isDeleted := false, deletedAt := none, createdAt := now }).1.posts
            = some { p with commentCount := p.commentCount + 1 }
          rw [hhook]
          exact incPostCommentCount_find s d.postId 1 p hfind

/-- Witness for C9 at the concrete comment-A creation. -/
theorem c9_notification_failure_isolated_witness :
    ∃ s1, createComment c4db1 ⟨"A", 1, 2, none⟩ 20 true
        = .ok (s1, ⟨2, "A", 1, 2, none, 1, "", [], 0, false, true, false, false, none, 20⟩) ∧
      s1.comments = c4db2.comments ∧ s1.posts = c4db2.posts ∧
      s1.comments = c4db1.comments
        ++ [⟨2, "A", 1, 2, none, 1, "", [], 0, false, true, false, false, none, 20⟩] ∧
      (∀ p, findById Post.id 1 c4db1.posts = some p →
        findById Post.id 1 s1.posts = some { p with commentCount := p.commentCount + 1 }) :=
  c9_notification_failure_isolated c4db1 ⟨"A", 1, 2, none⟩ 20 c4db2
    ⟨2, "A", 1, 2, none, 1, "", [], 0, false, true, false, false, none, 20⟩ (by rfl)

/-! ### Claim C8 (confirmed: cycle rejection in `updateCategory`) -/

/-- Every intermediate category of a parent chain is in the collection. -/
theorem chainTo_mem {s : DB} {t : Nat} :
    ∀ {c : Category} {l : List Category}, ChainTo s t c l → ∀ e ∈ l, e ∈ s.categories := by
  intro c l
  induction l generalizing c with
  | nil =>
    intro _ e he
    simp at he
  | cons c' rest ih =>
    intro h e he
    obtain ⟨_, hfind, hrest⟩ := h
    rcases List.mem_cons.mp he with he | he
    · exact he ▸ findById_mem hfind
    · exact ih hrest e he

/-- The ancestor walk of the cycle check detects the target at the end of any
parent chain shorter than its fuel. -/
theorem chainTo_walk {s : DB} {t : Nat} :
    ∀ {c : Category} {l : List Category} {fuel : Nat}, ChainTo s t c l →
      l.length < fuel → cycleWalkFind s t fuel c = true := by
  intro c l
  induction l generalizing c with
  | nil =>
    intro fuel hc hfl
    cases fuel with
    | zero => omega
    | succ k =>
      unfold cycleWalkFind
      have hp : c.parentCategory = some t := hc
      rw [hp]
      simp
  | cons c' rest ih =>
    intro fuel hc hfl
    obtain ⟨hp, hfind, hrest⟩ := hc
    cases fuel with
    | zero => omega
    | succ k =>
      unfold cycleWalkFind
      simp only [hp]
      by_cases ht : c'.id = t
      · simp [ht]
      · rw [if_neg ht]
        simp only [hfind]
        exact ih hrest (by simpa using Nat.lt_of_succ_lt_succ hfl)

/-- A node-distinct parent chain is shorter than the category collection. -/
theorem chain_length_lt {s : DB} {x : Nat} {d : Category} {l : List Category}
    (hd : findById Category.id d.id s.categories = some d)
    (hchain : ChainTo s x d l)
    (hnodup : ((d :: l).map Category.id).Nodup) :
    l.length < s.categories.length := by
  have hsub : (d :: l).map Category.id ⊆ s.categories.map Category.id := by
    intro i hi
    simp only [List.mem_map] at hi ⊢
    obtain ⟨e, he, hei⟩ := hi
    rcases List.mem_cons.mp he with he | he
    · exact ⟨e, he ▸ findById_mem hd, hei⟩
    · exact ⟨e, chainTo_mem hchain e he, hei⟩
  have hle := (List.subperm_of_subset hnodup hsub).length_le
  simp only [List.length_map, List.length_cons] at hle
  omega

/-- Claim C8: setting category X's parent to any of X's descendants D
(witnessed by the upward parent chain from D to X, node-distinct as in any
acyclic tree) fails with the cyclic-parent (`InvalidArgument`) error, and
the aborted transaction leaves every category unchanged. -/
theorem c8_cycle_rejected (s : DB) (x d : Category) (l : List Category)
    (hx : findById Category.id x.id s.categories = some x)
    (hd : findById Category.id d.id s.categories = some d)
    (hne : d.id ≠ x.id)
    (hchain : ChainTo s x.id d l)
    (hnodup : ((d :: l).map Category.id).Nodup) :
    updateCategory s x.id ⟨none, none, some (some d.id), none⟩ = .error .cyclicParentCategory ∧
    runUpdateCategory s x.id ⟨none, none, some (some d.id), none⟩ = s := by
  have hwalk : cycleWalkFind s x.id s.categories.length d = true :=
    chainTo_walk hchain (chain_length_lt hd hchain hnodup)
  have hps : parentStep s x.id (some (some d.id)) = .error .cyclicParentCategory := by
    simp only [parentStep]
    rw [if_neg (by simp [hne])]
    simp only [hd]
    rw [if_pos hwalk]
  have he : updateCategory s x.id ⟨none, none, some (some d.id), none⟩
      = .error .cyclicParentCategory := by
    unfold updateCategory
    simp only [hx, nameStep, hps]
  refine ⟨he, ?_⟩
  unfold runUpdateCategory
  rw [he]

/-- Witness for C8: category 2 is a direct child of category 1, and
re-parenting 1 under 2 is rejected. -/
theorem c8_cycle_rejected_witness :
    updateCategory c8db 1 ⟨none, none, some (some 2), none⟩ = .error .cyclicParentCategory ∧
    runUpdateCategory c8db 1 ⟨none, none, some (some 2), none⟩ = c8db :=
  c8_cycle_rejected c8db ⟨1, "x", "x", "", none, 0⟩ ⟨2, "d", "d", "", some 1, 1⟩ []
    (by rfl) (by rfl) (by decide) (by exact rfl) (by decide)

/-! ### Claim C6 (confirmed: `level`/`path` are set at creation and immutable) -/

/-- The comment collection of a successful `createComment` is the old one
with the new comment appended (whether or not notification creation failed). -/
theorem createComment_comments {s : DB} {d : CreateCommentDTO} {now : Nat} {nf : Bool}
    {s' : DB} {c : Comment} (h : createComment s d now nf = .ok (s', c)) :
    s'.comments = s.comments ++ [c] := by
  unfold createComment at h
  split at h
  · exact absurd h (by simp)
  · split at h
    · exact absurd h (by simp)
    · split at h
      · exact absurd h (by simp)
      · simp only [Except.ok.injEq, Prod.mk.injEq] at h
        obtain ⟨hs, hcc⟩ := h
        rw [← hs]
        cases nf <;> simp [commentPreSaveNew_comments, hcc]

/-- Claim C6, creation half: on success the new comment's `level` is its
parent's level plus one and its `path` is the parent's path extended with the
parent's id; a top-level comment gets `level 1` and the empty path. -/
theorem createComment_level_path (s : DB) (d : CreateCommentDTO) (now : Nat) (nf : Bool)
    (s' : DB) (c : Comment) (h : createComment s d now nf = .ok (s', c)) :
    (match d.parentCommentId with
     | some pid => ∃ pc, findComment s pid = some pc ∧
         c.level = pc.level + 1 ∧ c.path = extendPath pc.path pid
     | none => c.level = 1 ∧ c.path = "") := by
  unfold createComment at h
  split at h
  · exact absurd h (by simp)
  · split at h
    · exact absurd h (by simp)
    · split at h
      · exact absurd h (by simp)
      · rename_i hparent
        simp only [Except.ok.injEq, Prod.mk.injEq] at h
        obtain ⟨hs, hcc⟩ := h
        cases hpc : d.parentCommentId with
        | none =>
          rw [← hcc]
          simp [commentPreSaveNew, hpc]
        | some pid =>
          rw [hpc] at hparent
          cases hfc : findComment s pid with
          | none => exact absurd (by simp [hfc]) hparent
          | some pc =>
            refine ⟨pc, hfc, ?_, ?_⟩ <;>
              (rw [← hcc]; simp [commentPreSaveNew, hpc, hfc])

/-- Under unique ids, the first-match write-back is a pointwise map. -/
theorem updateById_eq_map {idf : α → Nat} {i : Nat} {v : α} {l : List α}
    (hnd : (l.map idf).Nodup) :
    updateById idf i v l = l.map (fun y => if idf y == i then v else y) := by
  induction l with
  | nil => rfl
  | cons y ys ih =>
    simp only [List.map_cons, List.nodup_cons] at hnd
    obtain ⟨hy, hys⟩ := hnd
    simp only [updateById, List.map_cons]
    by_cases hyi : (idf y == i) = true
    · rw [if_pos hyi, if_pos hyi]
      have hyi' : idf y = i := by simpa using hyi
      have hmap : ys.map (fun z => if idf z == i then v else z) = ys.map (fun z => z) := by
        apply List.map_congr_left
        intro z hz
        have hzi : ¬ (idf z == i) = true := by
          simp only [beq_iff_eq]
          intro hzi
          apply hy
          rw [hyi', ← hzi]
          exact List.mem_map_of_mem idf hz
        rw [if_neg hzi]
      rw [hmap]
      simp
    · rw [if_neg hyi, if_neg hyi]
      rw [ih hys]

/-- Under unique ids, any stored comment with the looked-up id IS the comment
the soft-delete-filtered lookup found. -/
theorem findComment_unique {s : DB} {cid : Nat} {c₀ y : Comment}
    (hnd : (s.comments.map Comment.id).Nodup)
    (hfc : findComment s cid = some c₀) (hy : y ∈ s.comments) (hyid : y.id = cid) :
    y = c₀ := by
  have hc0mem : c₀ ∈ s.comments := List.mem_of_find?_eq_some hfc
  have hc0id : c₀.id = cid := by
    have := List.find?_some hfc
    simp only [Bool.and_eq_true, beq_iff_eq] at this
    exact this.1
  exact List.inj_on_of_nodup_map hnd hy hc0mem (by rw [hyid, hc0id])

/-- Every comment operation leaves the collection unchanged, appends one
comment, or writes back one looked-up comment with its `id`, `level` and
`path` untouched. -/
theorem stepComment_comments_shape (s : DB) (op : CommentOp) :
    (stepComment s op).comments = s.comments ∨
    (∃ x, (stepComment s op).comments = s.comments ++ [x]) ∨
    (∃ cid c₀ v, findComment s cid = some c₀ ∧ v.id = c₀.id ∧ v.level = c₀.level ∧
      v.path = c₀.path ∧ (stepComment s op).comments = updateById Comment.id cid v s.comments) := by
  cases op with
  | create d now nf =>
    cases hr : createComment s d now nf with
    | error e => left; simp [stepComment, hr]
    | ok r =>
      obtain ⟨s', c⟩ := r
      right; left
      refine ⟨c, ?_⟩
      simp only [stepComment, hr]
      exact createComment_comments hr
  | update cid aid content =>
    cases hfc : findComment s cid with
    | none => left; simp [stepComment, updateComment, hfc]
    | some c₀ =>
      by_cases ha : c₀.author ≠ aid
      · left
        simp only [stepComment, updateComment, hfc, if_pos ha]
      · right; right
        refine ⟨cid, c₀, { c₀ with content := content, isEdited := true }, hfc, rfl, rfl, rfl, ?_⟩
        simp only [stepComment, updateComment, hfc, if_neg ha]
  | delete cid uid isAdmin now =>
    cases hfc : findComment s cid with
    | none => left; simp [stepComment, deleteComment, hfc]
    | some c₀ =>
      by_cases ha : c₀.author ≠ uid ∧ ¬ isAdmin
      · left
        simp only [stepComment, deleteComment, hfc, if_pos ha]
      · right; right
        refine ⟨cid, c₀, { c₀ with isDeleted := true, deletedAt := some now }, hfc,
          rfl, rfl, rfl, ?_⟩
        simp only [stepComment, deleteComment, hfc, if_neg ha]
        rw [incPostCommentCount_comments]
  | like cid uid nf =>
    cases hfc : findComment s cid with
    | none => left; simp [stepComment, likeComment, hfc]
    | some c₀ =>
      by_cases hl : c₀.likes.contains uid = true
      · left
        simp only [stepComment, likeComment, hfc, if_pos hl]
      · right; right
        refine ⟨cid, c₀,
          { c₀ with likes := c₀.likes ++ [uid], likeCount := (c₀.likes ++ [uid]).length }, hfc,
          rfl, rfl, rfl, ?_⟩
        simp only [stepComment, likeComment, hfc, if_neg hl]
        split <;> rfl
  | unlike cid uid =>
    cases hfc : findComment s cid with
    | none => left; simp [stepComment, unlikeComment, hfc]
    | some c₀ =>
      right; right
      refine ⟨cid, c₀,
        { c₀ with likes := c₀.likes.filter (fun i => ¬ i == uid),
                  likeCount := (c₀.likes.filter (fun i => ¬ i == uid)).length }, hfc,
        rfl, rfl, rfl, ?_⟩
      simp only [stepComment, unlikeComment, hfc]
  | moderate cid ap =>
    cases hfc : findComment s cid with
    | none => left; simp [stepComment, moderateComment, hfc]
    | some c₀ =>
      right; right
      refine ⟨cid, c₀, { c₀ with isApproved := ap }, hfc, rfl, rfl, rfl, ?_⟩
      simp only [stepComment, moderateComment, hfc]
      rw [incPostCommentCount_comments]
  | highlight cid hl =>
    cases hfc : findComment s cid with
    | none => left; simp [stepComment, highlightComment, hfc]
    | some c₀ =>
      right; right
      refine ⟨cid, c₀, { c₀ with isHighlighted := hl }, hfc, rfl, rfl, rfl, ?_⟩
      simp only [stepComment, highlightComment, hfc]

/-- Claim C6, immutability half: under unique ids, every comment operation
preserves the `id`, `level` and `path` of every stored comment (pointwise
over collection positions). -/
theorem stepComment_preserves_level_path (s : DB) (op : CommentOp)
    (hnd : (s.comments.map Comment.id).Nodup) (i : Nat) (c : Comment)
    (hg : s.comments.get? i = some c) :
    ∃ c', (stepComment s op).comments.get? i = some c' ∧
      c'.id = c.id ∧ c'.level = c.level ∧ c'.path = c.path := by
  rcases stepComment_comments_shape s op with hsh | ⟨x, hsh⟩ | ⟨cid, c₀, v, hfc, hid, hlvl, hpath, hsh⟩
  · exact ⟨c, by rw [hsh, hg], rfl, rfl, rfl⟩
  · refine ⟨c, ?_, rfl, rfl, rfl⟩
    rw [hsh]
    have hi : i < s.comments.length := (List.get?_eq_some.mp hg).1
    rw [List.get?_append hi, hg]
  · rw [hsh, updateById_eq_map hnd]
    rw [List.get?_map, hg]
    by_cases hy : (c.id == cid) = true
    · have hmem : c ∈ s.comments := List.get?_mem hg
      have hc0 : c = c₀ := findComment_unique hnd hfc hmem (by simpa using hy)
      refine ⟨v, ?_, ?_, ?_, ?_⟩
      · simp only [Option.map_some']
        rw [if_pos hy]
      · rw [hc0]; exact hid
      · rw [hc0]; exact hlvl
      · rw [hc0]; exact hpath
    · refine ⟨c, ?_, rfl, rfl, rfl⟩
      simp only [Option.map_some']
      rw [if_neg hy]

/-- Claim C6: (creation) a comment created while its parent exists gets
`level = parent.level + 1` and `path = extendPath parent.path parentId`
(`level 1`, empty path when top-level); (immutability) every later comment
operation — content edit, soft-delete (of the comment or its parent),
like/unlike, moderation, highlight — preserves the `id`, `level` and `path`
of every stored comment. -/
theorem c6_level_path_set_at_creation_immutable :
    (∀ (s : DB) (d : CreateCommentDTO) (now : Nat) (nf : Bool) (s' : DB) (c : Comment),
      createComment s d now nf = .ok (s', c) →
      (match d.parentCommentId with
       | some pid => ∃ pc, findComment s pid = some pc ∧
           c.level = pc.level + 1 ∧ c.path = extendPath pc.path pid
       | none => c.level = 1 ∧ c.path = "")) ∧
    (∀ (s : DB) (op : CommentOp), (s.comments.map Comment.id).Nodup →
      ∀ (i : Nat) (c : Comment), s.comments.get? i = some c →
        ∃ c', (stepComment s op).comments.get? i = some c' ∧
          c'.id = c.id ∧ c'.level = c.level ∧ c'.path = c.path) :=
  ⟨createComment_level_path, stepComment_preserves_level_path⟩

/-- Witness for C6: the creation of reply B (under comment A, id 2) in the
C4 scenario, and a highlight operation after A's soft-delete. -/
theorem c6_level_path_witness :
    (∃ pc, findComment c4db2 2 = some pc ∧
      (⟨3, "B", 1, 1, some 2, 2, "2", [], 0, false, true, false, false, none, 21⟩ : Comment).level
        = pc.level + 1 ∧
      (⟨3, "B", 1, 1, some 2, 2, "2", [], 0, false, true, false, false, none, 21⟩ : Comment).path
        = extendPath pc.path 2) ∧
    (∃ c', (stepComment c4db (.highlight 3 true)).comments.get? 1 = some c' ∧
      c'.id = 3 ∧ c'.level = 2 ∧ c'.path = "2") := by
  constructor
  · exact c6_level_path_set_at_creation_immutable.1 c4db2 ⟨"B", 1, 1, some 2⟩ 21 false c4db3
      ⟨3, "B", 1, 1, some 2, 2, "2", [], 0, false, true, false, false, none, 21⟩ (by rfl)
  · obtain ⟨c', h1, h2, h3, h4⟩ :=
      c6_level_path_set_at_creation_immutable.2 c4db (.highlight 3 true) (by decide) 1
        ⟨3, "B", 1, 1, some 2, 2, "2", [], 0, false, true, false, false, none, 21⟩ (by rfl)
    exact ⟨c', h1, by rw [h2], by rw [h3], by rw [h4]⟩

end HanksServer
